import Mathlib

/-!
Verification of the mopidy-mpd command dispatch core.

This file embeds, in Lean, the parts of the repository that the claims are
about:

* the value converters `UINT`, `BOOL`, `RANGE` and the acceptance behaviour
  of `FLOAT` (src/mopidy_mpd/protocol/__init__.py, lines 64-124);
* the command registry `Commands` with its `add` registration decorator and
  its `call` dispatch operation, including the wrapped `validate` closure
  that binds tokens to handler parameters and runs converters
  (src/mopidy_mpd/protocol/__init__.py, lines 127-243);
* the per-line session guard `MpdSession.on_line_received`
  (src/mopidy_mpd/session.py, lines 47-67).

Machine strings are modelled over Lean `String` and `List Char`; Python's
Unicode-aware character predicates (`str.islower`, `str.isalpha`,
`str.isdigit`, `str.isspace`) are modelled by their ASCII fragments, which
agree with Python on every ASCII character.  Python runtime exceptions that
the code raises and catches (`ValueError`, `TypeError`,
`exceptions.MpdArgError`, ...) are modelled with `Except`; the mutation of
`Commands.handlers` is modelled by explicit state passing.
-/

set_option linter.unusedVariables false

namespace MopidyMpd

/-! ## Python values

Values bound to handler parameters.  A supplied token is always a raw
string; declared defaults and converter outputs may be typed values.  The
`ctx` constructor stands for the opaque per-connection context object passed
as the handler's first argument. -/

inductive Value where
  | str (s : String)
  | int (n : Int)
  | bool (b : Bool)
  | slice (start : Nat) (stop : Option Nat)
  | ctx
deriving DecidableEq, Repr

/-! ## Value converters (protocol/__init__.py lines 64-124) -/

/-- ASCII fragment of Python `str.isdigit`: true iff the string is nonempty
and every character is a decimal digit. -/
def pyIsdigit (l : List Char) : Bool :=
  !l.isEmpty && l.all Char.isDigit

/-- Decimal value of a list of digit characters, as computed by Python
`int(value)` on an all-digit string. -/
def parseDigits (l : List Char) : Nat :=
  l.foldl (fun a c => 10 * a + (c.toNat - 48)) 0

/-- Core of the `UINT` converter, on character lists.  Python raises
`ValueError` unless `value.isdigit()`, and otherwise returns `int(value)`. -/
def UINTL (l : List Char) : Except Unit Nat :=
  if pyIsdigit l then .ok (parseDigits l) else .error ()

/-- The `UINT` converter (lines 72-78): accepts digit-only strings and
returns their decimal value; anything else (sign characters, non-digits,
the empty string) raises `ValueError`, modelled as `.error ()`. -/
def UINT (value : String) : Except Unit Nat :=
  UINTL value.data

/-- The `BOOL` converter (lines 98-102): `"1"` and `"0"` map to `true` and
`false` via `bool(int(value))`; every other token raises `ValueError`. -/
def BOOL (value : String) : Except Unit Bool :=
  if value = "1" then .ok true
  else if value = "0" then .ok false
  else .error ()

/-- Split a character list at the first occurrence of `sep`; `none` when
`sep` does not occur.  Models Python `value.split(sep, 1)` combined with the
`sep in value` membership test. -/
def splitOnce (sep : Char) : List Char → Option (List Char × List Char)
  | [] => none
  | c :: rest =>
    if c = sep then some ([], rest)
    else
      match splitOnce sep rest with
      | none => none
      | some (l, r) => some (c :: l, r)

/-- Truthiness of Python `stop.strip()` (ASCII whitespace): true iff the
list contains some non-whitespace character. -/
def stripTruthy (l : List Char) : Bool :=
  l.any (fun c => !c.isWhitespace)

/-- The `RANGE` converter (lines 105-124).  Returns the `slice(start, stop)`
as a pair of the start and the optional stop.  With a colon, the part before
the colon must be an unsigned integer; a blank part after the colon gives an
open-ended slice, otherwise the stop must be an unsigned integer strictly
greater than the start.  Without a colon the token denotes `slice(n, n+1)`. -/
def RANGE (value : String) : Except Unit (Nat × Option Nat) :=
  match splitOnce ':' value.data with
  | some (startPart, stopPart) =>
    match UINTL startPart with
    | .error e => .error e
    | .ok start =>
      if stripTruthy stopPart then
        match UINTL stopPart with
        | .error e => .error e
        | .ok stop =>
          if start ≥ stop then .error () else .ok (start, some stop)
      else .ok (start, none)
  | none =>
    match UINTL value.data with
    | .error e => .error e
    | .ok start => .ok (start, some (start + 1))

/-! ## The FLOAT converter's acceptance behaviour (lines 81-85)

`FLOAT` simply calls Python `float(value)`.  The claims about `FLOAT`
concern which tokens it accepts, so we model the acceptance predicate of
CPython's `float` string parsing (ASCII fragment): optional surrounding
whitespace, an optional sign, then either `inf`/`infinity`/`nan`
(case-insensitive) or a decimal literal with optional fractional part and
optional exponent, with underscores permitted between digits. -/

/-- Tail of a digit run: digits, with single underscores allowed only
between digits. -/
def digitsTail : List Char → Bool
  | [] => true
  | '_' :: c :: rest => c.isDigit && digitsTail rest
  | c :: rest => c.isDigit && digitsTail rest

/-- A Python digit part: nonempty, starts with a digit, underscores only
between digits. -/
def digitsPart : List Char → Bool
  | [] => false
  | c :: rest => c.isDigit && digitsTail rest

/-- Drop one leading sign character, if present. -/
def dropSign : List Char → List Char
  | '+' :: rest => rest
  | '-' :: rest => rest
  | l => l

/-- Split a character list at the first character satisfying `p`. -/
def splitOnceP (p : Char → Bool) : List Char → Option (List Char × List Char)
  | [] => none
  | c :: rest =>
    if p c then some ([], rest)
    else
      match splitOnceP p rest with
      | none => none
      | some (l, r) => some (c :: l, r)

/-- Mantissa of a float literal: digits, or digits dot digits, with either
side of the dot optional but not both empty. -/
def mantissaOK (l : List Char) : Bool :=
  match splitOnce '.' l with
  | none => digitsPart l
  | some (intPart, fracPart) =>
    (intPart.isEmpty || digitsPart intPart) &&
    (fracPart.isEmpty || digitsPart fracPart) &&
    !(intPart.isEmpty && fracPart.isEmpty)

/-- Number with optional exponent. -/
def numberOK (l : List Char) : Bool :=
  match splitOnceP (fun c => c = 'e' || c = 'E') l with
  | none => mantissaOK l
  | some (m, ex) => mantissaOK m && digitsPart (dropSign ex)

/-- Strip ASCII whitespace from both ends. -/
def stripWS (l : List Char) : List Char :=
  ((l.dropWhile Char.isWhitespace).reverse.dropWhile Char.isWhitespace).reverse

/-- Acceptance predicate of Python `float(value)` on ASCII strings. -/
def pyFloatAccepts (value : String) : Bool :=
  let l := dropSign (stripWS value.data)
  let low := l.map Char.toLower
  low = ['i', 'n', 'f'] || low = ['i', 'n', 'f', 'i', 'n', 'i', 't', 'y'] ||
    low = ['n', 'a', 'n'] || numberOK l

/-- The `FLOAT` converter's accept/reject behaviour: `float(value)` raises
`ValueError` exactly on the tokens `pyFloatAccepts` rejects.  The numeric
value itself plays no role in the claims, so it is not modelled. -/
def FLOAT (value : String) : Except Unit Unit :=
  if pyFloatAccepts value then .ok () else .error ()

/-- Form stated by the specification for the float converter: optional
sign, digits, optional fractional part.  Written from the spec's words, to
be compared with the code's behaviour `pyFloatAccepts`. -/
def specFloatForm (value : String) : Bool :=
  let l := dropSign value.data
  match splitOnce '.' l with
  | none => pyIsdigit l
  | some (intPart, fracPart) => pyIsdigit intPart && pyIsdigit fracPart

/-! ## Decimal representation of a natural number

Model of Python `str(n)` for a non-negative integer, used to state the
converter round-trip claims. -/

/-- Decimal digit characters of `n`, most significant first. -/
def natDigits (n : Nat) : List Char :=
  if h : n < 10 then [Nat.digitChar n]
  else natDigits (n / 10) ++ [Nat.digitChar (n % 10)]
decreasing_by
  exact Nat.div_lt_self (by omega) (by omega)

/-! ## Command registry (protocol/__init__.py lines 127-243) -/

/-- Converter/validator registered for a parameter: applied to the bound
value, it either returns the converted value or raises `ValueError`
(modelled as `.error ()`). -/
abbrev Validator := Value → Except Unit Value

/-- Scalar piece of a handler result (`ResultValue` type alias, line 35). -/
inductive ResultValue where
  | str (s : String)
  | int (n : Int)
deriving DecidableEq, Repr

/-- Member of a `ResultList` (line 38): a key/value tuple or a mapping. -/
inductive ResultEntry where
  | tup (key : String) (value : ResultValue)
  | dict (d : List (String × ResultValue))
deriving DecidableEq, Repr

/-- Outcome of one command invocation (`Result` type alias, line 39). -/
inductive Result where
  | empty
  | dict (d : List (String × ResultValue))
  | tuple (key : String) (value : ResultValue)
  | list (l : List ResultEntry)
deriving DecidableEq, Repr

/-- What the wrapped handler function is called with: `func(**callargs)`
for a non-variadic handler, `func(*args)` (context plus raw tokens) for a
variadic one. -/
inductive HandlerInput where
  | named (callargs : List (String × Value))
  | positional (context : Value) (tokens : List String)

/-- The unwrapped handler function. -/
abbrev HandlerFun := HandlerInput → Result

/-- Shape of a handler as reported by `inspect.getfullargspec(func)`:
its named positional parameters (the first being the context), whether it
has `*args` or `**kwargs`, its keyword-only parameters, and the declared
defaults (aligned with the last `defaults.length` entries of `args`). -/
structure FuncSpec where
  args : List String
  varargs : Bool
  varkw : Bool
  kwonlyargs : List String
  defaults : List Value
deriving Repr

/-- The mapping from defaulted parameter name to its declared default,
built at registration time as
`dict(zip(spec.args[-len(spec.defaults):], spec.defaults))`. -/
def defaultsMapOf (spec : FuncSpec) : List (String × Value) :=
  (spec.args.drop (spec.args.length - spec.defaults.length)).zip spec.defaults

/-- One registered command: everything the `validate` closure captures,
plus the `auth_required` and `list_command` attributes set on it. -/
structure Entry where
  name : String
  authRequired : Bool
  listCommand : Bool
  spec : FuncSpec
  defaultsMap : List (String × Value)
  validators : List (String × Validator)
  func : HandlerFun

/-- The registry's handler mapping `self.handlers`: an insertion-ordered
association list keyed by command name. -/
abbrev Registry := List (String × Entry)

/-- Configuration-time registration error: `ValueError` for a duplicate
name, `TypeError` for a handler-shape or validator violation. -/
inductive RegError where
  | valueError (msg : String)
  | typeError (msg : String)
deriving DecidableEq, Repr

/-- Per-request protocol failure raised by dispatching
(`MpdNoCommandError`, `MpdUnknownCommandError`, `MpdArgError`). -/
inductive MpdErr where
  | noCommand
  | unknownCommand (command : String)
  | argError (message : String)
deriving DecidableEq, Repr

instance {ε α : Type} [DecidableEq ε] [DecidableEq α] : DecidableEq (Except ε α) :=
  fun x y =>
    match x, y with
    | .error a, .error b =>
      if h : a = b then .isTrue (by rw [h])
      else .isFalse (fun hh => h (by cases hh; rfl))
    | .ok a, .ok b =>
      if h : a = b then .isTrue (by rw [h])
      else .isFalse (fun hh => h (by cases hh; rfl))
    | .error _, .ok _ => .isFalse (fun hh => by cases hh)
    | .ok _, .error _ => .isFalse (fun hh => by cases hh)

/-- Positional binding plus `apply_defaults` (lines 199-201):
`inspect.signature(func).bind(*args)` fails (`TypeError`, here `none`)
unless the number of positional values fits between the required parameter
count and the total parameter count; on success every parameter is bound,
the trailing unfilled ones to their declared defaults. -/
def bindApplyDefaults (args : List String) (defaults : List Value)
    (positional : List Value) : Option (List (String × Value)) :=
  if positional.length < args.length - defaults.length ||
      args.length < positional.length then
    none
  else
    some (args.zip
      (positional ++ defaults.drop (positional.length - (args.length - defaults.length))))

/-- Validation of one bound argument (lines 207-213): a parameter with a
registered validator whose bound value is not equal to its declared default
(`defaults.get(key, object())`, a fresh sentinel when the parameter has no
default) is replaced by the validator's output; `ValueError` from the
validator propagates. -/
def transformArg (defaultsMap : List (String × Value))
    (validators : List (String × Validator)) (key : String) (value : Value) :
    Except Unit Value :=
  match validators.lookup key with
  | none => .ok value
  | some f =>
    match defaultsMap.lookup key with
    | none => f value
    | some d => if value = d then .ok value else f value

/-- The validation loop over `callargs.items()`, in parameter order. -/
def applyValidators (defaultsMap : List (String × Value))
    (validators : List (String × Validator)) :
    List (String × Value) → Except Unit (List (String × Value))
  | [] => .ok []
  | (k, v) :: rest =>
    match transformArg defaultsMap validators k v with
    | .error e => .error e
    | .ok w =>
      match applyValidators defaultsMap validators rest with
      | .error e => .error e
      | .ok ws => .ok ((k, w) :: ws)

/-- Argument processing of the `validate` wrapper for a non-variadic
handler: `none` models the arity `TypeError` from `bind`, and the inner
`Except` is the validation loop's outcome on the bound arguments. -/
def Entry.boundArgs (e : Entry) (context : Value) (tokens : List String) :
    Option (Except Unit (List (String × Value))) :=
  match bindApplyDefaults e.spec.args e.spec.defaults
      (context :: tokens.map Value.str) with
  | none => none
  | some callargs => some (applyValidators e.defaultsMap e.validators callargs)

/-- The `validate` wrapper (lines 193-215): a variadic handler receives the
context and tokens unprocessed; otherwise tokens are bound positionally
(arity failure becomes `MpdArgError "wrong number of arguments ..."`), the
validators run (a `ValueError` becomes `MpdArgError "incorrect arguments"`),
and the handler is called with the final arguments. -/
def Entry.validate (e : Entry) (context : Value) (tokens : List String) :
    Except MpdErr Result :=
  if e.spec.varargs then .ok (e.func (.positional context tokens))
  else
    match e.boundArgs context tokens with
    | none =>
      .error (.argError ("wrong number of arguments for \"" ++ e.name ++ "\""))
    | some (.error _) => .error (.argError "incorrect arguments")
    | some (.ok final) => .ok (e.func (.named final))

/-- The registry entry that a successful registration stores under the
command name: the data captured by the `validate` closure together with the
`auth_required` and `list_command` flags (lines 193-219). -/
def Commands.mkEntry (name : String) (authRequired listCommand : Bool)
    (validators : List (String × Validator)) (spec : FuncSpec)
    (func : HandlerFun) : Entry :=
  { name := name
    authRequired := authRequired
    listCommand := listCommand
    spec := spec
    defaultsMap := defaultsMapOf spec
    validators := validators
    func := func }

/-- The registration decorator's `wrapper` (lines 168-220), with the
mutation of `self.handlers` made an explicit state transition: the checks
run in source order, each raising (`.error`) with the registry untouched;
only after all of them pass is the wrapped handler stored under `name`. -/
def Commands.add (handlers : Registry) (name : String)
    (authRequired listCommand : Bool) (validators : List (String × Validator))
    (spec : FuncSpec) (func : HandlerFun) : Except RegError Unit × Registry :=
  if (handlers.lookup name).isSome then
    (.error (.valueError (name ++ " already registered")), handlers)
  else if spec.args.isEmpty && !spec.varargs then
    (.error (.typeError "Handler must accept at least one argument."), handlers)
  else if decide (1 < spec.args.length) && spec.varargs then
    (.error (.typeError "*args may not be combined with regular arguments"),
      handlers)
  else if !(validators.all (fun kv => spec.args.contains kv.1)) then
    (.error (.typeError "Validator for non-existent arg passed"), handlers)
  else if spec.varkw || !spec.kwonlyargs.isEmpty then
    (.error (.typeError "Keyword arguments are not permitted"), handlers)
  else
    (.ok (), handlers ++
      [(name, Commands.mkEntry name authRequired listCommand validators spec func)])

/-- The registry's dispatch operation `Commands.call` (lines 224-243):
no tokens raises `MpdNoCommandError`; an unregistered first token raises
`MpdUnknownCommandError`; otherwise the registered `validate` wrapper is
invoked with the context and the remaining tokens. -/
def Commands.call (handlers : Registry) (context : Value)
    (tokens : List String) : Except MpdErr Result :=
  match tokens with
  | [] => .error .noCommand
  | command :: rest =>
    match handlers.lookup command with
    | none => .error (.unknownCommand command)
    | some e => e.validate context rest

/-! ## Session line handling (session.py lines 47-67) -/

/-- ASCII fragment of Python `str.islower` on a single character. -/
def py_islower (c : Char) : Bool :=
  'a' ≤ c && c ≤ 'z'

/-- ASCII fragment of Python `str.isalpha` on a single character. -/
def py_isalpha (c : Char) : Bool :=
  ('a' ≤ c && c ≤ 'z') || ('A' ≤ c && c ≤ 'Z')

/-- Observable outcome of `MpdSession.on_line_received` for one line:
stop the connection with a reason, send nothing, or send response lines. -/
inductive SessionAction where
  | close (reason : String)
  | silent
  | send (lines : List String)
deriving DecidableEq, Repr

/-- The session's line handler (session.py lines 47-67), parameterised by
the dispatcher's `handle_request`: an empty line, or a first character that
is not a lowercase alphabetic character, stops the connection with
"Malformed command" and sends nothing; otherwise the dispatcher's response
is sent, or nothing when it is empty. -/
def on_line_received (handle_request : String → List String)
    (line : String) : SessionAction :=
  if line.length = 0 || !(py_islower line.front && py_isalpha line.front) then
    .close "Malformed command"
  else
    match handle_request line with
    | [] => .silent
    | resp => .send resp

/-! ## Concrete instances

Concrete registry states used to exercise the theorems on closed inputs.
`VUINT` is the `UINT` converter in validator position, as registered by
handlers such as `volume`; the echo handler functions report back the
arguments they were called with, so that what a handler receives is
observable in the `Result`. -/

/-- Rendering of a bound `Value` into a `ResultValue`, used by the echo
handler functions below to expose their arguments. -/
def rvOf : Value → ResultValue
  | .str s => .str s
  | .int n => .int n
  | .bool b => .int (if b then 1 else 0)
  | .slice start _ => .int start
  | .ctx => .str "context"

/-- Echo handler: returns its arguments as the command `Result`. -/
def echoFun : HandlerFun
  | .named callargs => .dict (callargs.map (fun kv => (kv.1, rvOf kv.2)))
  | .positional _ tokens => .list (tokens.map (fun t => .tup "arg" (.str t)))

/-- The `UINT` converter used as a registered validator. -/
def VUINT : Validator
  | .str s =>
    match UINT s with
    | .ok n => .ok (.int n)
    | .error e => .error e
  | _ => .error ()

/-- Signature of a handler `def seekcur(context, position, mode="abs")`. -/
def seekSpec : FuncSpec :=
  { args := ["context", "position", "mode"]
    varargs := false
    varkw := false
    kwonlyargs := []
    defaults := [.str "abs"] }

/-- Registry obtained by registering `seekcur` with a `UINT` validator on
its required `position` parameter. -/
def seekReg : Registry :=
  (Commands.add [] "seekcur" true true [("position", VUINT)] seekSpec echoFun).2

/-- Signature of a handler `def volume(context, x="5")`: the declared
default of `x` is the string `"5"`. -/
def volSpec : FuncSpec :=
  { args := ["context", "x"]
    varargs := false
    varkw := false
    kwonlyargs := []
    defaults := [.str "5"] }

/-- Registry obtained by registering `volume` with a `UINT` validator on
its defaulted parameter `x`. -/
def volReg : Registry :=
  (Commands.add [] "volume" true true [("x", VUINT)] volSpec echoFun).2

/-- Signature of a handler `def ping(context)`. -/
def pingSpec : FuncSpec :=
  { args := ["context"]
    varargs := false
    varkw := false
    kwonlyargs := []
    defaults := [] }

/-- The entry that registering `ping` stores. -/
def pingEntry : Entry :=
  Commands.mkEntry "ping" false true [] pingSpec echoFun

/-- Shape of a handler `def bad0()`: no parameters at all. -/
def noArgSpec : FuncSpec :=
  { args := [], varargs := false, varkw := false, kwonlyargs := [], defaults := [] }

/-- Shape of a handler `def bad1(context, x, *args)`: variadic mixed with a
further named parameter. -/
def mixedSpec : FuncSpec :=
  { args := ["context", "x"], varargs := true, varkw := false, kwonlyargs := []
    defaults := [] }

/-- Shape of a handler `def bad2(context, **kwargs)`. -/
def kwSpec : FuncSpec :=
  { args := ["context"], varargs := false, varkw := true, kwonlyargs := []
    defaults := [] }

/-- Shape of a handler `def bad3(context, *, k)`: a keyword-only parameter. -/
def kwonlySpec : FuncSpec :=
  { args := ["context"], varargs := false, varkw := false, kwonlyargs := ["k"]
    defaults := [] }

/-! ## Lemmas about decimal digit strings -/

theorem digitChar_isDigit (n : Nat) (h : n < 10) : (Nat.digitChar n).isDigit = true := by
  interval_cases n <;> decide

theorem digitChar_toNat (n : Nat) (h : n < 10) : (Nat.digitChar n).toNat - 48 = n := by
  interval_cases n <;> decide

theorem natDigits_all_digit (n : Nat) : ∀ c ∈ natDigits n, c.isDigit = true := by
  induction n using natDigits.induct with
  | case1 n h =>
    rw [natDigits, dif_pos h]
    intro c hc
    simp at hc
    subst hc
    exact digitChar_isDigit n h
  | case2 n h ih =>
    rw [natDigits, dif_neg h]
    intro c hc
    rcases List.mem_append.1 hc with h1 | h1
    · exact ih c h1
    · simp at h1
      subst h1
      exact digitChar_isDigit _ (Nat.mod_lt _ (by omega))

theorem natDigits_ne_nil (n : Nat) : natDigits n ≠ [] := by
  induction n using natDigits.induct with
  | case1 n h => rw [natDigits, dif_pos h]; simp
  | case2 n h ih => rw [natDigits, dif_neg h]; simp

theorem foldl_natDigits (n : Nat) :
    ∀ a : Nat, (natDigits n).foldl (fun a c => 10 * a + (c.toNat - 48)) a =
      a * 10 ^ (natDigits n).length + n := by
  induction n using natDigits.induct with
  | case1 n h =>
    intro a
    rw [natDigits, dif_pos h]
    simp [digitChar_toNat n h]
    omega
  | case2 n h ih =>
    intro a
    rw [natDigits, dif_neg h]
    rw [List.foldl_append, ih a]
    simp only [List.foldl_cons, List.foldl_nil, List.length_append,
      List.length_singleton]
    rw [digitChar_toNat _ (Nat.mod_lt _ (by omega))]
    rw [pow_succ, ← mul_assoc]
    have hdm := Nat.div_add_mod n 10
    generalize a * (10 : Nat) ^ (natDigits (n / 10)).length = Q
    omega

theorem parseDigits_natDigits (n : Nat) : parseDigits (natDigits n) = n := by
  have h := foldl_natDigits n 0
  simpa [parseDigits] using h

theorem UINTL_natDigits (n : Nat) : UINTL (natDigits n) = .ok n := by
  unfold UINTL
  rw [if_pos, parseDigits_natDigits]
  unfold pyIsdigit
  rw [Bool.and_eq_true, List.all_eq_true]
  constructor
  · simp [List.isEmpty_iff, natDigits_ne_nil n]
  · exact natDigits_all_digit n

/-! ## Lemmas about splitting -/

theorem splitOnce_eq_none (sep : Char) (l : List Char)
    (h : ∀ c ∈ l, c ≠ sep) : splitOnce sep l = none := by
  induction l with
  | nil => rfl
  | cons c rest ih =>
    unfold splitOnce
    rw [if_neg (h c (List.mem_cons_self c rest))]
    rw [ih (fun d hd => h d (List.mem_cons_of_mem c hd))]

theorem splitOnce_append (sep : Char) (l r : List Char)
    (h : ∀ c ∈ l, c ≠ sep) : splitOnce sep (l ++ sep :: r) = some (l, r) := by
  induction l with
  | nil => simp [splitOnce]
  | cons c rest ih =>
    rw [List.cons_append]
    unfold splitOnce
    rw [if_neg (h c (List.mem_cons_self c rest))]
    rw [ih (fun d hd => h d (List.mem_cons_of_mem c hd))]

theorem isDigit_ne_colon {c : Char} (h : c.isDigit = true) : c ≠ ':' := by
  rintro rfl
  exact absurd h (by decide)

theorem isWhitespace_isDigit {c : Char} (h : c.isWhitespace = true) :
    c.isDigit = false := by
  have hcases : c = ' ' ∨ c = '\t' ∨ c = '\r' ∨ c = '\n' := by
    simpa [Char.isWhitespace, or_assoc] using h
  rcases hcases with rfl | rfl | rfl | rfl <;> decide

theorem stripTruthy_natDigits (m : Nat) : stripTruthy (natDigits m) = true := by
  unfold stripTruthy
  rw [List.any_eq_true]
  obtain ⟨c, rest, hc⟩ : ∃ c rest, natDigits m = c :: rest := by
    cases hnm : natDigits m with
    | nil => exact absurd hnm (natDigits_ne_nil m)
    | cons c rest => exact ⟨c, rest, rfl⟩
  refine ⟨c, by rw [hc]; exact List.mem_cons_self c rest, ?_⟩
  have hd : c.isDigit = true := natDigits_all_digit m c (by rw [hc]; simp)
  simp only [Bool.not_eq_true']
  by_contra hw
  rw [Bool.not_eq_false] at hw
  rw [isWhitespace_isDigit hw] at hd
  cases hd

/-! ## Claim C8: unsigned-integer round-trip and boolean semantics -/

/-- C8: the unsigned-integer converter applied to the decimal string of any
natural number returns that number, and it rejects any token containing a
non-digit character (in particular a sign character); the boolean converter
maps exactly "1" to true and "0" to false and fails on every other token. -/
theorem C8_converter_semantics :
    (∀ n : Nat, UINT (String.mk (natDigits n)) = .ok n) ∧
    (∀ s : String, (∃ c ∈ s.data, c.isDigit = false) → UINT s = .error ()) ∧
    BOOL "1" = .ok true ∧ BOOL "0" = .ok false ∧
    (∀ s : String, s ≠ "1" → s ≠ "0" → BOOL s = .error ()) := by
  refine ⟨?_, ?_, rfl, rfl, ?_⟩
  · intro n
    exact UINTL_natDigits n
  · rintro s ⟨c, hc, hcd⟩
    unfold UINT UINTL
    rw [if_neg]
    simp only [pyIsdigit, Bool.and_eq_true, List.all_eq_true]
    rintro ⟨-, hall⟩
    have hcontra := hall c hc
    rw [hcd] at hcontra
    cases hcontra
  · intro s h1 h0
    rw [BOOL, if_neg h1, if_neg h0]

/-- Witness for C8 at concrete inputs. -/
theorem C8_witness :
    UINT (String.mk (natDigits 42)) = .ok 42 ∧ UINT "+7" = .error () ∧
    BOOL "1" = .ok true ∧ BOOL "0" = .ok false ∧ BOOL "2" = .error () :=
  ⟨C8_converter_semantics.1 42,
   C8_converter_semantics.2.1 "+7" ⟨'+', by decide, by decide⟩,
   C8_converter_semantics.2.2.1,
   C8_converter_semantics.2.2.2.1,
   C8_converter_semantics.2.2.2.2 "2" (by decide) (by decide)⟩

/-! ## Claim C9: the float converter's accepted forms -/

/-- C9: contrary to the converter's own documentation and the spec's table,
the code's float converter accepts tokens that are not of the form
"optional sign, digits, optional fractional part" — for example the
exponent form "1e5" and the special form "inf" — because it delegates to
Python's `float`.  It does fail with a conversion error on a genuinely
non-numeric token. -/
theorem C9_float_divergence :
    FLOAT "1e5" = .ok () ∧ specFloatForm "1e5" = false ∧
    FLOAT "inf" = .ok () ∧ specFloatForm "inf" = false ∧
    FLOAT "-12.5" = .ok () ∧ specFloatForm "-12.5" = true ∧
    FLOAT "abc" = .error () := by
  decide

/-! ## Claim C3: resolve-and-call -/

/-- C3: the registry's call operation fails with the no-command error on an
empty token list, fails with the unknown-command error when the first token
names no registered command, and otherwise invokes the registered command's
wrapper with the context and the remaining tokens, returning its outcome. -/
theorem C3_resolve_and_call (handlers : Registry) (context : Value) :
    Commands.call handlers context [] = .error .noCommand ∧
    (∀ command rest, handlers.lookup command = none →
        Commands.call handlers context (command :: rest) =
          .error (.unknownCommand command)) ∧
    (∀ command rest e, handlers.lookup command = some e →
        Commands.call handlers context (command :: rest) =
          e.validate context rest) := by
  refine ⟨rfl, ?_, ?_⟩
  · intro command rest h
    simp [Commands.call, h]
  · intro command rest e h
    simp [Commands.call, h]

/-- Witness for C3 on a one-command registry. -/
theorem C3_witness :
    Commands.call [("ping", pingEntry)] .ctx [] = .error .noCommand ∧
    Commands.call [("ping", pingEntry)] .ctx ["pong"] =
      .error (.unknownCommand "pong") ∧
    Commands.call [("ping", pingEntry)] .ctx ["ping"] =
      pingEntry.validate .ctx [] :=
  ⟨(C3_resolve_and_call [("ping", pingEntry)] .ctx).1,
   (C3_resolve_and_call [("ping", pingEntry)] .ctx).2.1 "pong" [] rfl,
   (C3_resolve_and_call [("ping", pingEntry)] .ctx).2.2 "ping" [] pingEntry rfl⟩

/-! ## Claim C4: empty request line -/

/-- C4 counterexample: an empty request line does not keep the connection
open and is not answered with an ACK line; the session stops the connection
with "Malformed command" and sends nothing, whatever the dispatcher would
have answered. -/
theorem C4_counterexample :
    on_line_received (fun _ => ["ACK [5@0] no command given"]) "" =
      .close "Malformed command" := by
  rfl

/-- C4 amended: the no-command failure is a recoverable per-request
condition at the registry level, raised when the token list is empty; but
an empty request LINE never reaches the dispatcher — the session closes the
connection immediately and sends no response line. -/
theorem C4_empty_line (handlers : Registry) (context : Value) :
    Commands.call handlers context [] = .error .noCommand ∧
    (∀ handle_request : String → List String,
        on_line_received handle_request "" = .close "Malformed command") :=
  ⟨rfl, fun _ => rfl⟩

/-! ## Claim C5: first-byte guard -/

/-- C5: a request line whose first character is not a lowercase letter (for
example an uppercase letter or a digit) makes the session terminate the
connection immediately, with no response line; the line is never handed to
the dispatcher, as the outcome is the same for every dispatcher function.
Python's Unicode character predicates are modelled on their ASCII fragment. -/
theorem C5_first_byte_guard (line : String)
    (handle_request : String → List String)
    (h : (py_islower line.front && py_isalpha line.front) = false) :
    on_line_received handle_request line = .close "Malformed command" ∧
    (∀ g : String → List String,
        on_line_received g line = on_line_received handle_request line) := by
  have hclose : ∀ f : String → List String,
      on_line_received f line = .close "Malformed command" := by
    intro f
    simp [on_line_received, h]
  exact ⟨hclose handle_request,
    fun g => (hclose g).trans (hclose handle_request).symm⟩

/-- Witness for C5: a line starting with an uppercase letter and one
starting with a digit. -/
theorem C5_witness :
    on_line_received (fun _ => ["OK"]) "PLAY" = .close "Malformed command" ∧
    on_line_received (fun _ => ["OK"]) "1play" = .close "Malformed command" :=
  ⟨(C5_first_byte_guard "PLAY" (fun _ => ["OK"]) (by decide)).1,
   (C5_first_byte_guard "1play" (fun _ => ["OK"]) (by decide)).1⟩

/-! ## Claim C6: range converter semantics -/

theorem natDigits_ne_colon (n : Nat) : ∀ c ∈ natDigits n, c ≠ ':' :=
  fun c hc => isDigit_ne_colon (natDigits_all_digit n c hc)

/-- C6: range converter semantics: the decimal string of N yields the
half-open interval [N, N+1); "N:" yields an open-ended interval starting at
N; "N:M" yields [N, M) exactly when M > N and otherwise fails; a colon-free
token containing a non-digit character fails with a conversion error. -/
theorem C6_range_semantics :
    (∀ n : Nat, RANGE (String.mk (natDigits n)) = .ok (n, some (n + 1))) ∧
    (∀ n : Nat, RANGE (String.mk (natDigits n ++ [':'])) = .ok (n, none)) ∧
    (∀ n m : Nat, RANGE (String.mk (natDigits n ++ ':' :: natDigits m)) =
        if n < m then .ok (n, some m) else .error ()) ∧
    (∀ s : String, (∀ c ∈ s.data, c ≠ ':') →
        (∃ c ∈ s.data, c.isDigit = false) → RANGE s = .error ()) := by
  refine ⟨?_, ?_, ?_, ?_⟩
  · intro n
    have h1 : splitOnce ':' (natDigits n) = none :=
      splitOnce_eq_none ':' (natDigits n) (natDigits_ne_colon n)
    simp [RANGE, h1, UINTL_natDigits]
  · intro n
    have h1 : splitOnce ':' (natDigits n ++ ':' :: []) =
        some (natDigits n, []) :=
      splitOnce_append ':' (natDigits n) [] (natDigits_ne_colon n)
    simp [RANGE, h1, UINTL_natDigits, stripTruthy]
  · intro n m
    have h1 : splitOnce ':' (natDigits n ++ ':' :: natDigits m) =
        some (natDigits n, natDigits m) :=
      splitOnce_append ':' (natDigits n) (natDigits m) (natDigits_ne_colon n)
    simp only [RANGE, h1, UINTL_natDigits, stripTruthy_natDigits, if_true]
    by_cases hnm : n < m
    · rw [if_neg (by omega), if_pos hnm]
    · rw [if_pos (by omega), if_neg hnm]
  · rintro s hnc ⟨c, hc, hcd⟩
    have h1 : splitOnce ':' s.data = none := splitOnce_eq_none ':' s.data hnc
    have h2 : UINTL s.data = .error () := by
      unfold UINTL
      rw [if_neg]
      simp only [pyIsdigit, Bool.and_eq_true, List.all_eq_true]
      rintro ⟨-, hall⟩
      have hcontra := hall c hc
      rw [hcd] at hcontra
      cases hcontra
    simp [RANGE, h1, h2]

/-- Witness for C6 matching the spec's own examples: `range("3") == [3,4)`,
`range("4:")` open-ended at 4, `range("2:5") == [2,5)`, `range("5:2")`
fails, and a non-numeric token fails. -/
theorem C6_witness :
    RANGE (String.mk (natDigits 3)) = .ok (3, some 4) ∧
    RANGE (String.mk (natDigits 4 ++ [':'])) = .ok (4, none) ∧
    RANGE (String.mk (natDigits 2 ++ ':' :: natDigits 5)) = .ok (2, some 5) ∧
    RANGE (String.mk (natDigits 5 ++ ':' :: natDigits 2)) = .error () ∧
    RANGE "abc" = .error () := by
  refine ⟨C6_range_semantics.1 3, C6_range_semantics.2.1 4, ?_, ?_,
    C6_range_semantics.2.2.2 "abc" (by decide) ⟨'a', by decide, by decide⟩⟩
  · have h := C6_range_semantics.2.2.1 2 5
    simpa using h
  · have h := C6_range_semantics.2.2.1 5 2
    simpa using h

/-! ## Claim C7: registration-time failures -/

/-- C7: each configuration error is raised by the register operation
itself: a duplicate command name, a handler with no parameters at all,
variadic `*args` mixed with further named parameters, a `**kwargs` bag, a
keyword-only parameter, or a validator naming a parameter the handler does
not declare. -/
theorem C7_registration_failures (handlers : Registry) (name : String)
    (authRequired listCommand : Bool) (validators : List (String × Validator))
    (spec : FuncSpec) (func : HandlerFun) :
    ((handlers.lookup name).isSome = true →
      ∃ e, (Commands.add handlers name authRequired listCommand
        validators spec func).1 = .error e) ∧
    (spec.args = [] → spec.varargs = false →
      ∃ e, (Commands.add handlers name authRequired listCommand
        validators spec func).1 = .error e) ∧
    (1 < spec.args.length → spec.varargs = true →
      ∃ e, (Commands.add handlers name authRequired listCommand
        validators spec func).1 = .error e) ∧
    (∀ kv ∈ validators, spec.args.contains kv.1 = false →
      ∃ e, (Commands.add handlers name authRequired listCommand
        validators spec func).1 = .error e) ∧
    (spec.varkw = true →
      ∃ e, (Commands.add handlers name authRequired listCommand
        validators spec func).1 = .error e) ∧
    (spec.kwonlyargs ≠ [] →
      ∃ e, (Commands.add handlers name authRequired listCommand
        validators spec func).1 = .error e) := by
  unfold Commands.add
  split_ifs with h1 h2 h3 h4 h5
  case pos => exact ⟨fun _ => ⟨_, rfl⟩, fun _ _ => ⟨_, rfl⟩, fun _ _ => ⟨_, rfl⟩,
    fun _ _ _ => ⟨_, rfl⟩, fun _ => ⟨_, rfl⟩, fun _ => ⟨_, rfl⟩⟩
  case pos => exact ⟨fun _ => ⟨_, rfl⟩, fun _ _ => ⟨_, rfl⟩, fun _ _ => ⟨_, rfl⟩,
    fun _ _ _ => ⟨_, rfl⟩, fun _ => ⟨_, rfl⟩, fun _ => ⟨_, rfl⟩⟩
  case pos => exact ⟨fun _ => ⟨_, rfl⟩, fun _ _ => ⟨_, rfl⟩, fun _ _ => ⟨_, rfl⟩,
    fun _ _ _ => ⟨_, rfl⟩, fun _ => ⟨_, rfl⟩, fun _ => ⟨_, rfl⟩⟩
  case pos => exact ⟨fun _ => ⟨_, rfl⟩, fun _ _ => ⟨_, rfl⟩, fun _ _ => ⟨_, rfl⟩,
    fun _ _ _ => ⟨_, rfl⟩, fun _ => ⟨_, rfl⟩, fun _ => ⟨_, rfl⟩⟩
  case pos => exact ⟨fun _ => ⟨_, rfl⟩, fun _ _ => ⟨_, rfl⟩, fun _ _ => ⟨_, rfl⟩,
    fun _ _ _ => ⟨_, rfl⟩, fun _ => ⟨_, rfl⟩, fun _ => ⟨_, rfl⟩⟩
  -- success branch: every failure condition contradicts one of h1-h5
  refine ⟨fun hc => absurd hc h1, fun ha hv => ?_, fun hlen hv => ?_,
    fun kv hkv hcont => ?_, fun hkw => ?_, fun hko => ?_⟩
  · exact absurd (by simp [ha, hv]) h2
  · exact absurd (by simp [hlen, hv]) h3
  · refine absurd ?_ h4
    simp only [Bool.not_eq_true', Bool.not_eq_false]
    rw [List.all_eq_false]
    exact ⟨kv, hkv, by simpa using hcont⟩
  · exact absurd (by simp [hkw]) h5
  · exact absurd (by simp [hko]) h5

/-- Witness for C7: one concrete rejected registration per failure kind. -/
theorem C7_witness :
    (∃ e, (Commands.add seekReg "seekcur" true true [] pingSpec echoFun).1 =
      .error e) ∧
    (∃ e, (Commands.add [] "bad0" true true [] noArgSpec echoFun).1 =
      .error e) ∧
    (∃ e, (Commands.add [] "bad1" true true [] mixedSpec echoFun).1 =
      .error e) ∧
    (∃ e, (Commands.add [] "volume" true true [("y", VUINT)] volSpec
      echoFun).1 = .error e) ∧
    (∃ e, (Commands.add [] "bad2" true true [] kwSpec echoFun).1 =
      .error e) ∧
    (∃ e, (Commands.add [] "bad3" true true [] kwonlySpec echoFun).1 =
      .error e) :=
  ⟨(C7_registration_failures seekReg "seekcur" true true [] pingSpec
      echoFun).1 (by decide),
   (C7_registration_failures [] "bad0" true true [] noArgSpec echoFun).2.1
      rfl rfl,
   (C7_registration_failures [] "bad1" true true [] mixedSpec echoFun).2.2.1
      (by decide) rfl,
   (C7_registration_failures [] "volume" true true [("y", VUINT)] volSpec
      echoFun).2.2.2.1 ("y", VUINT) (List.mem_singleton.2 rfl) (by decide),
   (C7_registration_failures [] "bad2" true true [] kwSpec echoFun).2.2.2.2.1
      rfl,
   (C7_registration_failures [] "bad3" true true [] kwonlySpec
      echoFun).2.2.2.2.2 (by decide)⟩

/-! ## Claim C10: registration atomicity -/

theorem lookup_append {β : Type} (xs ys : List (String × β)) (k : String) :
    (xs ++ ys).lookup k =
      match xs.lookup k with
      | some v => some v
      | none => ys.lookup k := by
  induction xs with
  | nil => rfl
  | cons p rest ih =>
    rcases p with ⟨a, b⟩
    rw [List.cons_append]
    by_cases hk : k == a
    · simp [List.lookup, hk]
    · simp only [List.lookup, Bool.not_eq_true] at hk ⊢
      rw [hk]
      exact ih

/-- C10: registration is atomic with respect to the registry: when the
register operation fails, the handler mapping is exactly what it was before
the call; a successful registration requires the name to be fresh, appends
exactly the one new entry, and leaves the binding of every other name
unchanged. -/
theorem C10_registration_atomic (handlers : Registry) (name : String)
    (authRequired listCommand : Bool) (validators : List (String × Validator))
    (spec : FuncSpec) (func : HandlerFun) :
    (∀ e, (Commands.add handlers name authRequired listCommand
        validators spec func).1 = .error e →
      (Commands.add handlers name authRequired listCommand
        validators spec func).2 = handlers) ∧
    ((Commands.add handlers name authRequired listCommand
        validators spec func).1 = .ok () →
      handlers.lookup name = none ∧
      (Commands.add handlers name authRequired listCommand
          validators spec func).2 =
        handlers ++ [(name, Commands.mkEntry name authRequired listCommand
          validators spec func)] ∧
      (Commands.add handlers name authRequired listCommand
          validators spec func).2.lookup name =
        some (Commands.mkEntry name authRequired listCommand validators
          spec func) ∧
      (∀ other, other ≠ name →
        (Commands.add handlers name authRequired listCommand
            validators spec func).2.lookup other = handlers.lookup other)) := by
  unfold Commands.add
  split_ifs with h1 h2 h3 h4 h5
  case pos => exact ⟨fun e he => rfl, fun hok => by cases hok⟩
  case pos => exact ⟨fun e he => rfl, fun hok => by cases hok⟩
  case pos => exact ⟨fun e he => rfl, fun hok => by cases hok⟩
  case pos => exact ⟨fun e he => rfl, fun hok => by cases hok⟩
  case pos => exact ⟨fun e he => rfl, fun hok => by cases hok⟩
  have hnone : handlers.lookup name = none := by
    cases hl : handlers.lookup name with
    | none => rfl
    | some v => rw [hl] at h1; cases h1 rfl
  refine ⟨?_, ?_⟩
  · intro e he
    exact absurd he (by simp)
  · intro hok
    refine ⟨hnone, rfl, ?_, ?_⟩
    · rw [lookup_append, hnone]
      simp [List.lookup]
    · intro other ho
      rw [lookup_append]
      cases hx : handlers.lookup other with
      | none =>
        simp only [List.lookup]
        rw [show (other == name) = false by
          simp only [beq_eq_false_iff_ne, ne_eq]; exact ho]
      | some v => rfl

/-! ## Lemmas about bound-argument lists

These support the claims about the `validate` wrapper: `callargs` is the
zip of the parameter names with the bound values, and the validation loop
is `applyValidators`. -/

theorem lookup_zip_getElem (ks : List String) (vs : List Value)
    (hnd : ks.Nodup) (j : Nat) (hj : j < ks.length) (hv : j < vs.length) :
    (ks.zip vs).lookup ks[j] = some vs[j] := by
  induction ks generalizing vs j with
  | nil => cases hj
  | cons k rest ih =>
    cases vs with
    | nil => cases hv
    | cons v vrest =>
      rw [List.zip_cons_cons]
      cases j with
      | zero => simp [List.lookup]
      | succ i =>
        have hj2 : i < rest.length := by simpa using hj
        have hv2 : i < vrest.length := by simpa using hv
        rw [List.getElem_cons_succ k rest i hj, List.getElem_cons_succ v vrest i hv]
        simp only [List.lookup]
        have hne : (rest[i] == k) = false := by
          have hmem : rest[i] ∈ rest := List.getElem_mem hj2
          have hknot : k ∉ rest := (List.nodup_cons.1 hnd).1
          simp only [beq_eq_false_iff_ne, ne_eq]
          intro he
          exact hknot (he ▸ hmem)
        rw [hne]
        exact ih vrest (List.nodup_cons.1 hnd).2 i hj2 hv2

theorem lookup_zip_of_not_mem (ks : List String) (vs : List Value)
    (a : String) (h : a ∉ ks) : (ks.zip vs).lookup a = none := by
  induction ks generalizing vs with
  | nil => rfl
  | cons k rest ih =>
    cases vs with
    | nil => rfl
    | cons v vrest =>
      rw [List.zip_cons_cons]
      simp only [List.lookup]
      rw [show (a == k) = false by
        simp only [beq_eq_false_iff_ne, ne_eq]
        intro he
        exact h (he ▸ List.mem_cons_self k rest)]
      exact ih vrest (fun hm => h (List.mem_cons_of_mem _ hm))

theorem applyValidators_ok_of_all (dm : List (String × Value))
    (vs : List (String × Validator)) (l : List (String × Value))
    (h : ∀ p ∈ l, ∃ w, transformArg dm vs p.1 p.2 = .ok w) :
    ∃ res, applyValidators dm vs l = .ok res := by
  induction l with
  | nil => exact ⟨[], rfl⟩
  | cons p rest ih =>
    rcases p with ⟨k, v⟩
    obtain ⟨w, hw⟩ := h (k, v) (List.mem_cons_self (k, v) rest)
    obtain ⟨res, hres⟩ := ih (fun q hq => h q (List.mem_cons_of_mem (k, v) hq))
    exact ⟨(k, w) :: res, by simp [applyValidators, hw, hres]⟩

theorem applyValidators_lookup (dm : List (String × Value))
    (vs : List (String × Validator)) :
    ∀ (l res : List (String × Value)), applyValidators dm vs l = .ok res →
      ∀ k v, l.lookup k = some v →
        ∃ w, transformArg dm vs k v = .ok w ∧ res.lookup k = some w := by
  intro l
  induction l with
  | nil =>
    intro res h k v hkv
    cases hkv
  | cons p rest ih =>
    intro res h k v hkv
    rcases p with ⟨k0, v0⟩
    cases ht : transformArg dm vs k0 v0 with
    | error e =>
      simp only [applyValidators, ht] at h
      exact absurd h (by simp)
    | ok w0 =>
      cases hr : applyValidators dm vs rest with
      | error e =>
        simp only [applyValidators, ht, hr] at h
        exact absurd h (by simp)
      | ok ws =>
        simp only [applyValidators, ht, hr] at h
        injection h with h1
        subst h1
        simp only [List.lookup] at hkv ⊢
        by_cases hbk : (k == k0) = true
        · rw [hbk] at hkv ⊢
          have hv0 : v = v0 := by
            injection hkv with h1
            exact h1.symm
          subst hv0
          have hkk0 : k = k0 := eq_of_beq hbk
          subst hkk0
          exact ⟨w0, ht, rfl⟩
        · rw [Bool.not_eq_true] at hbk
          rw [hbk] at hkv ⊢
          exact ih ws hr k v hkv

theorem boundArgs_none (e : Entry) (context : Value) (tokens : List String)
    (h : tokens.length + 1 < e.spec.args.length - e.spec.defaults.length ∨
      e.spec.args.length < tokens.length + 1) :
    e.boundArgs context tokens = none := by
  unfold Entry.boundArgs bindApplyDefaults
  rw [if_pos (by
    simp only [List.length_cons, List.length_map, Bool.or_eq_true,
      decide_eq_true_eq]
    omega)]

theorem boundArgs_eq (e : Entry) (context : Value) (tokens : List String)
    (h1 : e.spec.args.length - e.spec.defaults.length ≤ tokens.length + 1)
    (h2 : tokens.length + 1 ≤ e.spec.args.length) :
    e.boundArgs context tokens =
      some (applyValidators e.defaultsMap e.validators
        (e.spec.args.zip ((context :: tokens.map Value.str) ++
          e.spec.defaults.drop (tokens.length + 1 -
            (e.spec.args.length - e.spec.defaults.length))))) := by
  unfold Entry.boundArgs bindApplyDefaults
  rw [if_neg (by
    simp only [List.length_cons, List.length_map, Bool.or_eq_true,
      decide_eq_true_eq, not_or]
    omega)]
  simp only [List.length_cons, List.length_map]

/-- Witness for C10: a rejected duplicate registration leaves the registry
unchanged, and a successful registration appends exactly its entry. -/
theorem C10_witness :
    (Commands.add seekReg "seekcur" true true [] pingSpec echoFun).2 =
      seekReg ∧
    (Commands.add [] "volume" true true [("x", VUINT)] volSpec echoFun).2 =
      [("volume", Commands.mkEntry "volume" true true [("x", VUINT)] volSpec
        echoFun)] ∧
    (Commands.add [] "volume" true true [("x", VUINT)] volSpec
      echoFun).2.lookup "status" = none := by
  have hdup := (C10_registration_atomic seekReg "seekcur" true true []
    pingSpec echoFun).1 (.valueError "seekcur already registered") rfl
  have hok := (C10_registration_atomic [] "volume" true true [("x", VUINT)]
    volSpec echoFun).2 rfl
  exact ⟨hdup, hok.2.1, (hok.2.2.2 "status" (by decide)).trans rfl⟩

/-! ## Claim C1: the default-skip rule -/

/-- C1 amended: for a registered non-variadic handler, a parameter `j`
(counted with the context at position 0) that has both a declared default
and a registered validator, and any invocation through the registry that
reaches the handler: with no token supplied for that parameter the handler
receives the declared default unconverted; with a token supplied whose
value differs from the declared default the handler receives the
validator's output for that token; but a supplied token that is equal (by
value) to the declared default is passed through unconverted — the code
keys the skip on value equality with the default, not on whether a token
was supplied. -/
theorem C1_default_skip (handlers : Registry) (name : String) (context : Value)
    (e : Entry) (hlook : handlers.lookup name = some e)
    (hnv : e.spec.varargs = false)
    (hwf : e.defaultsMap = defaultsMapOf e.spec)
    (hnd : e.spec.args.Nodup)
    (hdle : e.spec.defaults.length < e.spec.args.length)
    (j : Nat) (hj1 : 1 ≤ j) (hj : j < e.spec.args.length)
    (hjdef : e.spec.args.length - e.spec.defaults.length ≤ j)
    (f : Validator)
    (hval : e.validators.lookup (e.spec.args.getD j "") = some f)
    (tokens : List String) (final : List (String × Value))
    (hok : e.boundArgs context tokens = some (.ok final)) :
    Commands.call handlers context (name :: tokens) =
      .ok (e.func (.named final)) ∧
    (tokens.length < j →
      final.lookup (e.spec.args.getD j "") =
        some (e.spec.defaults.getD
          (j - (e.spec.args.length - e.spec.defaults.length)) (.str ""))) ∧
    (j ≤ tokens.length →
      Value.str (tokens.getD (j - 1) "") ≠
        e.spec.defaults.getD
          (j - (e.spec.args.length - e.spec.defaults.length)) (.str "") →
      ∃ w, f (.str (tokens.getD (j - 1) "")) = .ok w ∧
        final.lookup (e.spec.args.getD j "") = some w) ∧
    (j ≤ tokens.length →
      Value.str (tokens.getD (j - 1) "") =
        e.spec.defaults.getD
          (j - (e.spec.args.length - e.spec.defaults.length)) (.str "") →
      final.lookup (e.spec.args.getD j "") =
        some (.str (tokens.getD (j - 1) ""))) := by
  have hcall : Commands.call handlers context (name :: tokens) =
      .ok (e.func (.named final)) := by
    simp [Commands.call, hlook, Entry.validate, hnv, hok]
  have harity : e.spec.args.length - e.spec.defaults.length ≤
      tokens.length + 1 ∧ tokens.length + 1 ≤ e.spec.args.length := by
    by_contra hc
    rw [not_and_or] at hc
    have hn := boundArgs_none e context tokens (by omega)
    rw [hn] at hok
    cases hok
  obtain ⟨ha1, ha2⟩ := harity
  have hbe := boundArgs_eq e context tokens ha1 ha2
  rw [hbe] at hok
  injection hok with hok2
  have hvlen : ((context :: tokens.map Value.str) ++
      e.spec.defaults.drop (tokens.length + 1 -
        (e.spec.args.length - e.spec.defaults.length))).length =
      e.spec.args.length := by
    simp only [List.length_append, List.length_cons, List.length_map,
      List.length_drop]
    omega
  have hjv : j < ((context :: tokens.map Value.str) ++
      e.spec.defaults.drop (tokens.length + 1 -
        (e.spec.args.length - e.spec.defaults.length))).length := by
    rw [hvlen]
    exact hj
  have hgd : e.spec.args.getD j "" = e.spec.args[j] :=
    List.getD_eq_getElem e.spec.args "" hj
  rw [hgd] at hval
  have hddlt : j - (e.spec.args.length - e.spec.defaults.length) <
      e.spec.defaults.length := by omega
  have hgdd : e.spec.defaults.getD
      (j - (e.spec.args.length - e.spec.defaults.length)) (.str "") =
      e.spec.defaults[j - (e.spec.args.length - e.spec.defaults.length)] :=
    List.getD_eq_getElem e.spec.defaults (.str "") hddlt
  have hdm : e.defaultsMap.lookup e.spec.args[j] =
      some (e.spec.defaults[j -
        (e.spec.args.length - e.spec.defaults.length)]) := by
    rw [hwf]
    unfold defaultsMapOf
    have hnd2 : (e.spec.args.drop
        (e.spec.args.length - e.spec.defaults.length)).Nodup :=
      List.Nodup.sublist (List.drop_sublist _ _) hnd
    have hi1 : j - (e.spec.args.length - e.spec.defaults.length) <
        (e.spec.args.drop
          (e.spec.args.length - e.spec.defaults.length)).length := by
      simp only [List.length_drop]
      omega
    have hlz2 := lookup_zip_getElem
      (e.spec.args.drop (e.spec.args.length - e.spec.defaults.length))
      e.spec.defaults hnd2
      (j - (e.spec.args.length - e.spec.defaults.length)) hi1 hddlt
    rw [List.getElem_drop] at hlz2
    have hidxeq : e.spec.args.length - e.spec.defaults.length +
        (j - (e.spec.args.length - e.spec.defaults.length)) = j := by omega
    simp only [hidxeq] at hlz2
    exact hlz2
  have htrans : ∀ v : Value,
      transformArg e.defaultsMap e.validators e.spec.args[j] v =
        if v = e.spec.defaults[j -
          (e.spec.args.length - e.spec.defaults.length)]
        then .ok v else f v := by
    intro v
    simp only [transformArg, hval, hdm]
  have hlz := lookup_zip_getElem e.spec.args
    ((context :: tokens.map Value.str) ++
      e.spec.defaults.drop (tokens.length + 1 -
        (e.spec.args.length - e.spec.defaults.length))) hnd j hj hjv
  obtain ⟨w, htr, hfin⟩ := applyValidators_lookup e.defaultsMap e.validators
    _ _ hok2 e.spec.args[j] _ hlz
  rw [htrans] at htr
  refine ⟨hcall, ?_, ?_, ?_⟩
  · -- no token supplied: the bound value is the declared default
    intro hlt
    have hvj : ((context :: tokens.map Value.str) ++
        e.spec.defaults.drop (tokens.length + 1 -
          (e.spec.args.length - e.spec.defaults.length)))[j] =
        e.spec.defaults[j -
          (e.spec.args.length - e.spec.defaults.length)] := by
      have h0 := List.getElem?_eq_getElem hjv
      rw [List.getElem?_append_right (by
        simp only [List.length_cons, List.length_map]
        omega)] at h0
      rw [List.getElem?_drop] at h0
      have hidx2 : tokens.length + 1 -
          (e.spec.args.length - e.spec.defaults.length) +
          (j - (context :: tokens.map Value.str).length) =
          j - (e.spec.args.length - e.spec.defaults.length) := by
        simp only [List.length_cons, List.length_map]
        omega
      rw [hidx2, List.getElem?_eq_getElem hddlt] at h0
      injection h0 with h0
      exact h0.symm
    rw [hvj] at htr
    rw [if_pos rfl] at htr
    injection htr with htr
    rw [hgd, hgdd, hfin, ← htr]
  · -- token supplied, different from the default: validator applied
    intro hle hne
    have hjt : j - 1 < tokens.length := by omega
    have hgt : tokens.getD (j - 1) "" = tokens[j - 1] :=
      List.getD_eq_getElem tokens "" hjt
    have hvj : ((context :: tokens.map Value.str) ++
        e.spec.defaults.drop (tokens.length + 1 -
          (e.spec.args.length - e.spec.defaults.length)))[j] =
        Value.str tokens[j - 1] := by
      have h0 := List.getElem?_eq_getElem hjv
      rw [List.getElem?_append_left (by
        simp only [List.length_cons, List.length_map]
        omega)] at h0
      rw [List.getElem?_cons, if_neg (by omega)] at h0
      rw [List.getElem?_map] at h0
      rw [List.getElem?_eq_getElem hjt] at h0
      simp only [Option.map_some'] at h0
      injection h0 with h0
      exact h0.symm
    rw [hvj] at htr
    rw [hgt, hgdd] at hne
    rw [if_neg hne] at htr
    rw [hgd, hgt]
    exact ⟨w, htr, hfin⟩
  · -- token supplied but equal to the default: validator skipped
    intro hle heq
    have hjt : j - 1 < tokens.length := by omega
    have hgt : tokens.getD (j - 1) "" = tokens[j - 1] :=
      List.getD_eq_getElem tokens "" hjt
    have hvj : ((context :: tokens.map Value.str) ++
        e.spec.defaults.drop (tokens.length + 1 -
          (e.spec.args.length - e.spec.defaults.length)))[j] =
        Value.str tokens[j - 1] := by
      have h0 := List.getElem?_eq_getElem hjv
      rw [List.getElem?_append_left (by
        simp only [List.length_cons, List.length_map]
        omega)] at h0
      rw [List.getElem?_cons, if_neg (by omega)] at h0
      rw [List.getElem?_map] at h0
      rw [List.getElem?_eq_getElem hjt] at h0
      simp only [Option.map_some'] at h0
      injection h0 with h0
      exact h0.symm
    rw [hvj] at htr
    rw [hgt, hgdd] at heq
    rw [if_pos heq] at htr
    injection htr with htr
    rw [hgd, hgt, hfin, ← htr]

/-- C1 counterexample: the handler `volume` declares `x` with the string
default "5" and a `UINT` validator; invoking it through the registry with
the supplied token "5" skips the validator, because the bound value equals
the declared default, so the handler receives the raw string "5" — not the
validator's output for "5", which is the integer 5.  This refutes the
claim's unconditional "if a token is supplied for it, the handler receives
the validator applied to that token" (the token "7" by contrast does go
through the validator). -/
theorem C1_counterexample :
    Commands.call volReg .ctx ["volume", "5"] =
      .ok (.dict [("context", .str "context"), ("x", .str "5")]) ∧
    VUINT (.str "5") = .ok (.int 5) ∧
    Value.str "5" ≠ Value.int 5 ∧
    Commands.call volReg .ctx ["volume", "7"] =
      .ok (.dict [("context", .str "context"), ("x", .int 7)]) := by
  decide

/-- Witness for C1 (amended) on the `volume` registry: no token yields the
default "5" unconverted, token "7" yields the validator's output `int 7`,
and token "5" (equal to the default) is passed through unconverted. -/
theorem C1_witness :
    Commands.call volReg .ctx ["volume"] =
      .ok (echoFun (.named [("context", Value.ctx), ("x", Value.str "5")])) ∧
    List.lookup "x" [("context", Value.ctx), ("x", Value.str "5")] =
      some (Value.str "5") ∧
    (∃ w, VUINT (.str "7") = .ok w ∧
      List.lookup "x" [("context", Value.ctx), ("x", Value.int 7)] = some w) ∧
    List.lookup "x" [("context", Value.ctx), ("x", Value.str "5")] =
      some (Value.str "5") := by
  have h0 := C1_default_skip volReg "volume" .ctx
    (Commands.mkEntry "volume" true true [("x", VUINT)] volSpec echoFun)
    rfl rfl rfl (by decide) (by decide) 1 (by decide) (by decide) (by decide)
    VUINT rfl [] [("context", Value.ctx), ("x", Value.str "5")] (by decide)
  have h7 := C1_default_skip volReg "volume" .ctx
    (Commands.mkEntry "volume" true true [("x", VUINT)] volSpec echoFun)
    rfl rfl rfl (by decide) (by decide) 1 (by decide) (by decide) (by decide)
    VUINT rfl ["7"] [("context", Value.ctx), ("x", Value.int 7)] (by decide)
  have h5 := C1_default_skip volReg "volume" .ctx
    (Commands.mkEntry "volume" true true [("x", VUINT)] volSpec echoFun)
    rfl rfl rfl (by decide) (by decide) 1 (by decide) (by decide) (by decide)
    VUINT rfl ["5"] [("context", Value.ctx), ("x", Value.str "5")] (by decide)
  refine ⟨h0.1, ?_, ?_, ?_⟩
  · have h := h0.2.1 (by decide)
    simpa [Commands.mkEntry, volSpec, List.getD] using h
  · have h := h7.2.2.1 (by decide) (by decide)
    simpa [Commands.mkEntry, volSpec, List.getD] using h
  · have h := h5.2.2.2 (by decide) (by decide)
    simpa [Commands.mkEntry, volSpec, List.getD] using h

/-! ## Claim C2: arity -/

theorem defaultsMapOf_lookup_some (spec : FuncSpec) (hnd : spec.args.Nodup)
    (i : Nat) (hi : i < spec.args.length)
    (hlt : i - (spec.args.length - spec.defaults.length) < spec.defaults.length)
    (hidef : spec.args.length - spec.defaults.length ≤ i) :
    (defaultsMapOf spec).lookup spec.args[i] =
      some spec.defaults[i - (spec.args.length - spec.defaults.length)] := by
  unfold defaultsMapOf
  have hnd2 : (spec.args.drop
      (spec.args.length - spec.defaults.length)).Nodup :=
    List.Nodup.sublist (List.drop_sublist _ _) hnd
  have hi1 : i - (spec.args.length - spec.defaults.length) <
      (spec.args.drop (spec.args.length - spec.defaults.length)).length := by
    simp only [List.length_drop]
    omega
  have hlz2 := lookup_zip_getElem
    (spec.args.drop (spec.args.length - spec.defaults.length))
    spec.defaults hnd2 (i - (spec.args.length - spec.defaults.length)) hi1 hlt
  rw [List.getElem_drop] at hlz2
  have hidxeq : spec.args.length - spec.defaults.length +
      (i - (spec.args.length - spec.defaults.length)) = i := by omega
  simp only [hidxeq] at hlz2
  exact hlz2

theorem defaultsMapOf_lookup_none (spec : FuncSpec) (hnd : spec.args.Nodup)
    (i : Nat) (hi : i < spec.args.length)
    (hilt : i < spec.args.length - spec.defaults.length) :
    (defaultsMapOf spec).lookup spec.args[i] = none := by
  unfold defaultsMapOf
  apply lookup_zip_of_not_mem
  intro hmem
  obtain ⟨n, hn, hne⟩ := List.mem_iff_getElem.1 hmem
  rw [List.getElem_drop] at hne
  have heq := (List.Nodup.getElem_inj_iff hnd).1 hne
  omega

/-- C2: for a registered command with a non-variadic handler, invoking it
through the registry with exactly the declared required-argument count and
valid tokens succeeds; invoking it with one token fewer than the required
count, or with one token more than the handler's required and optional
parameters can bind, fails with the arity argument-error and no other
failure kind. -/
theorem C2_arity (handlers : Registry) (name : String) (context : Value)
    (e : Entry) (hlook : handlers.lookup name = some e)
    (hnv : e.spec.varargs = false)
    (hwf : e.defaultsMap = defaultsMapOf e.spec)
    (hnd : e.spec.args.Nodup)
    (hdle : e.spec.defaults.length < e.spec.args.length)
    (hctx : e.validators.lookup (e.spec.args.getD 0 "") = none) :
    (∀ tokens : List String,
      tokens.length = e.spec.args.length - 1 - e.spec.defaults.length →
      (∀ i, i < tokens.length → ∀ f,
        e.validators.lookup (e.spec.args.getD (i + 1) "") = some f →
        ∃ w, f (.str (tokens.getD i "")) = .ok w) →
      ∃ res, Commands.call handlers context (name :: tokens) = .ok res) ∧
    (∀ tokens : List String,
      tokens.length + 1 = e.spec.args.length - 1 - e.spec.defaults.length →
      Commands.call handlers context (name :: tokens) =
        .error (.argError
          ("wrong number of arguments for \"" ++ e.name ++ "\""))) ∧
    (∀ tokens : List String,
      tokens.length = e.spec.args.length →
      Commands.call handlers context (name :: tokens) =
        .error (.argError
          ("wrong number of arguments for \"" ++ e.name ++ "\""))) := by
  refine ⟨?_, ?_, ?_⟩
  · intro tokens hlen hvalid
    have ha1 : e.spec.args.length - e.spec.defaults.length ≤
        tokens.length + 1 := by omega
    have ha2 : tokens.length + 1 ≤ e.spec.args.length := by omega
    have hbe := boundArgs_eq e context tokens ha1 ha2
    have hvlen : ((context :: tokens.map Value.str) ++
        e.spec.defaults.drop (tokens.length + 1 -
          (e.spec.args.length - e.spec.defaults.length))).length =
        e.spec.args.length := by
      simp only [List.length_append, List.length_cons, List.length_map,
        List.length_drop]
      omega
    have hall : ∀ p ∈ e.spec.args.zip ((context :: tokens.map Value.str) ++
        e.spec.defaults.drop (tokens.length + 1 -
          (e.spec.args.length - e.spec.defaults.length))),
        ∃ w, transformArg e.defaultsMap e.validators p.1 p.2 = .ok w := by
      intro p hp
      obtain ⟨i, hi, hpe⟩ := List.mem_iff_getElem.1 hp
      rw [List.length_zip, hvlen] at hi
      have hia : i < e.spec.args.length := by omega
      have hiv : i < ((context :: tokens.map Value.str) ++
          e.spec.defaults.drop (tokens.length + 1 -
            (e.spec.args.length - e.spec.defaults.length))).length := by
        omega
      rw [List.getElem_zip] at hpe
      subst hpe
      simp only
      rcases Nat.lt_or_ge i 1 with hi0 | hi1
      · -- the context parameter: no validator is registered for it
        have hieq : i = 0 := by omega
        subst hieq
        have hg0 : e.spec.args.getD 0 "" = e.spec.args[0] :=
          List.getD_eq_getElem e.spec.args "" hia
        rw [hg0] at hctx
        have htv : ∀ v : Value, transformArg e.defaultsMap e.validators
            e.spec.args[0] v = .ok v := by
          intro v
          simp only [transformArg, hctx]
        exact ⟨_, htv _⟩
      · rcases Nat.lt_or_ge i (tokens.length + 1) with hit | hid
        · -- a required parameter, bound to the raw token i-1
          have hjt : i - 1 < tokens.length := by omega
          have hvi : ((context :: tokens.map Value.str) ++
              e.spec.defaults.drop (tokens.length + 1 -
                (e.spec.args.length - e.spec.defaults.length)))[i] =
              Value.str tokens[i - 1] := by
            have h0 := List.getElem?_eq_getElem hiv
            rw [List.getElem?_append_left (by
              simp only [List.length_cons, List.length_map]
              omega)] at h0
            rw [List.getElem?_cons, if_neg (by omega)] at h0
            rw [List.getElem?_map] at h0
            rw [List.getElem?_eq_getElem hjt] at h0
            simp only [Option.map_some'] at h0
            injection h0 with h0
            exact h0.symm
          rw [hvi]
          cases hv : e.validators.lookup e.spec.args[i] with
          | none =>
            have htv : ∀ v : Value, transformArg e.defaultsMap e.validators
                e.spec.args[i] v = .ok v := by
              intro v
              simp only [transformArg, hv]
            exact ⟨_, htv _⟩
          | some f =>
            have hdn : e.defaultsMap.lookup e.spec.args[i] = none := by
              rw [hwf]
              exact defaultsMapOf_lookup_none e.spec hnd i hia (by omega)
            obtain ⟨w, hw⟩ := hvalid (i - 1) hjt f (by
              rw [show i - 1 + 1 = i from by omega,
                List.getD_eq_getElem e.spec.args "" hia]
              exact hv)
            rw [List.getD_eq_getElem tokens "" hjt] at hw
            refine ⟨w, ?_⟩
            simp only [transformArg, hv, hdn]
            exact hw
        · -- a defaulted parameter, bound to its own declared default
          have hlt : i - (e.spec.args.length - e.spec.defaults.length) <
              e.spec.defaults.length := by omega
          have hvi : ((context :: tokens.map Value.str) ++
              e.spec.defaults.drop (tokens.length + 1 -
                (e.spec.args.length - e.spec.defaults.length)))[i] =
              e.spec.defaults[i -
                (e.spec.args.length - e.spec.defaults.length)] := by
            have h0 := List.getElem?_eq_getElem hiv
            rw [List.getElem?_append_right (by
              simp only [List.length_cons, List.length_map]
              omega)] at h0
            rw [List.getElem?_drop] at h0
            have hidx2 : tokens.length + 1 -
                (e.spec.args.length - e.spec.defaults.length) +
                (i - (context :: tokens.map Value.str).length) =
                i - (e.spec.args.length - e.spec.defaults.length) := by
              simp only [List.length_cons, List.length_map]
              omega
            rw [hidx2, List.getElem?_eq_getElem hlt] at h0
            injection h0 with h0
            exact h0.symm
          rw [hvi]
          cases hv : e.validators.lookup e.spec.args[i] with
          | none =>
            have htv : ∀ v : Value, transformArg e.defaultsMap e.validators
                e.spec.args[i] v = .ok v := by
              intro v
              simp only [transformArg, hv]
            exact ⟨_, htv _⟩
          | some f =>
            have hds : e.defaultsMap.lookup e.spec.args[i] =
                some e.spec.defaults[i -
                  (e.spec.args.length - e.spec.defaults.length)] := by
              rw [hwf]
              exact defaultsMapOf_lookup_some e.spec hnd i hia hlt (by omega)
            refine ⟨e.spec.defaults[i -
              (e.spec.args.length - e.spec.defaults.length)], ?_⟩
            simp only [transformArg, hv, hds]
            simp
    obtain ⟨res, hres⟩ := applyValidators_ok_of_all e.defaultsMap
      e.validators _ hall
    rw [List.cons_append] at hres
    refine ⟨e.func (.named res), ?_⟩
    simp [Commands.call, hlook, Entry.validate, hnv, hbe, hres]
  · intro tokens hlen
    have hbn := boundArgs_none e context tokens (by omega)
    simp [Commands.call, hlook, Entry.validate, hnv, hbn]
  · intro tokens hlen
    have hbn := boundArgs_none e context tokens (by omega)
    simp [Commands.call, hlook, Entry.validate, hnv, hbn]

/-- Witness for C2 on the `seekcur` registry (one required parameter with a
`UINT` validator, one optional parameter): one valid token succeeds, zero
tokens and three tokens fail with the arity argument-error. -/
theorem C2_witness :
    (∃ res, Commands.call seekReg .ctx ["seekcur", "7"] = .ok res) ∧
    Commands.call seekReg .ctx ["seekcur"] =
      .error (.argError "wrong number of arguments for \"seekcur\"") ∧
    Commands.call seekReg .ctx ["seekcur", "1", "2", "3"] =
      .error (.argError "wrong number of arguments for \"seekcur\"") := by
  have h := C2_arity seekReg "seekcur" .ctx
    (Commands.mkEntry "seekcur" true true [("position", VUINT)] seekSpec
      echoFun)
    rfl rfl rfl (by decide) (by decide) rfl
  refine ⟨h.1 ["7"] rfl ?_, ?_, ?_⟩
  · intro i hi f hf
    simp only [List.length_singleton] at hi
    have hieq : i = 0 := by omega
    subst hieq
    have h2 : some f = some VUINT := hf.symm.trans rfl
    injection h2 with h2
    subst h2
    exact ⟨.int 7, rfl⟩
  · have h2 := h.2.1 [] rfl
    simpa using h2
  · have h3 := h.2.2 ["1", "2", "3"] rfl
    simpa using h3

end MopidyMpd
